import Mathlib

/-!
Shallow embedding of `src/pages/api/instagramSearch.js`: an HTTP GET handler
that validates query parameters, serves a per-query in-memory cache of raw
profile records (fetching from an external scraper on a miss), reorders the
records by relevance to the query, paginates them, and projects them to the
public profile shape.

JavaScript semantics modelled explicitly:
  * absent object fields are `Option.none`; JS `x || y` treats both `undefined`
    and the empty string as falsy (`jsOrS`, `jsOrOpt`, `truthy`);
  * `String.prototype.toLowerCase` / `startsWith` / `.length` are modelled
    character-wise over the string's character list (ASCII-faithful);
  * `parseInt(s, 10)` skips leading whitespace, reads an optional sign and
    then a maximal digit run, and is NaN (`none`) when no digit follows;
  * `Array.prototype.sort` is a stable sort of the comparator (`stableSort`);
  * the external Apify calls are an oracle `FetchOutcome` handed to the
    handler: a result list, a missing result container, or a thrown error.
-/

namespace InstagramSearch

/-- JS `String.prototype.toLowerCase`, character-wise (ASCII-faithful). -/
def lowerStr (s : String) : String := ⟨s.data.map Char.toLower⟩

/-- JS `String.prototype.startsWith`. -/
def startsWithStr (s pre : String) : Bool := pre.data.isPrefixOf s.data

/-- JS `String.prototype.length` (for ASCII data; code-unit count). -/
def lenStr (s : String) : Nat := s.data.length

/-- Does `needle` occur as a contiguous run inside the list? -/
def isInfixB (needle : List Char) : List Char → Bool
  | [] => needle.isEmpty
  | c :: cs => needle.isPrefixOf (c :: cs) || isInfixB needle cs

/-- JS `String.prototype.includes`: substring containment. -/
def includesStr (s pat : String) : Bool := isInfixB pat.data s.data

/-- JS `a || b` where `a` is a possibly-absent string and `b` a string:
`undefined` and `""` are falsy and fall through to `b`. -/
def jsOrS (a : Option String) (b : String) : String :=
  match a with
  | some s => if s = "" then b else s
  | none => b

/-- JS `a || b` where both sides are possibly-absent strings. -/
def jsOrOpt (a b : Option String) : Option String :=
  match a with
  | some s => if s = "" then b else some s
  | none => b

/-- JS truthiness of a possibly-absent string. -/
def truthy : Option String → Bool
  | some s => s ≠ ""
  | none => false

/-- JS `parseInt(s, 10)`: skip leading whitespace, optional sign, then a
maximal run of decimal digits; `none` models NaN (no digit found). -/
def parseIntJS (s : String) : Option Int :=
  let cs := s.data.dropWhile fun c =>
    c = ' ' || c = '\t' || c = '\n' || c = '\r' || c = '\x0b' || c = '\x0c'
  let signed : Int × List Char :=
    match cs with
    | '-' :: rest => (-1, rest)
    | '+' :: rest => (1, rest)
    | _ => (1, cs)
  let ds := signed.2.takeWhile Char.isDigit
  if ds.isEmpty then none
  else some (signed.1 * (ds.foldl (fun n c => n * 10 + (c.toNat - 48)) 0 : Nat))

/-- A raw profile record as returned by the external scraper
(`item` in the source). Fields the handler touches; each may be absent. -/
structure RawRecord where
  id : Option String := none
  username : Option String := none
  bio : Option String := none
  profilePicUrlHD : Option String := none
  profilePicUrl : Option String := none
deriving DecidableEq, Repr

/-- `(item.username || '').toLowerCase()` from the source. -/
def lcUser (r : RawRecord) : String := lowerStr (jsOrS r.username "")

/-- `(item.username || '').toLowerCase() === q`: an exact match for `q`. -/
def isExact (q : String) (r : RawRecord) : Bool := lcUser r == q

/-- The comparator passed to `Array.prototype.sort` in the source:
prefix matches of `q` first, then ascending username length. -/
def cmpJS (q : String) (a b : RawRecord) : Int :=
  let aUser := lcUser a
  let bUser := lcUser b
  let aStarts := startsWithStr aUser q
  let bStarts := startsWithStr bUser q
  if aStarts && !bStarts then -1
  else if !aStarts && bStarts then 1
  else (lenStr aUser : Int) - (lenStr bUser : Int)

/-- `cmpJS q a b ≤ 0`: the "keep `a` no later than `b`" relation the stable
sort realises. -/
def cmpLe (q : String) (a b : RawRecord) : Bool := cmpJS q a b ≤ 0

/-- Insert `a` just before the first element `b` with `le a b`; the
insertion step of a stable insertion sort. -/
def insertLe {α : Type} (le : α → α → Bool) (a : α) : List α → List α
  | [] => [a]
  | b :: l => if le a b then a :: b :: l else b :: insertLe le a l

/-- Stable sort by the total preorder `le`; models JS `Array.prototype.sort`
(required stable by the ECMAScript spec) for a consistent comparator. -/
def stableSort {α : Type} (le : α → α → Bool) : List α → List α
  | [] => []
  | a :: l => insertLe le a (stableSort le l)

/-- `remainingProfiles.sort(comparator)` from the source. -/
def sortRemainder (q : String) (l : List RawRecord) : List RawRecord :=
  stableSort (cmpLe q) l

/-- The ranking block of the handler: if some record's lowercased username
equals `q` (`findIndex !== -1`), pin the first such record (`exactMatches[0]`,
which is exactly `find?`'s result) and follow it with the non-exact records
sorted; otherwise sort the whole dataset. -/
def rank (fullData : List RawRecord) (q : String) : List RawRecord :=
  match fullData.find? (isExact q) with
  | some e0 => e0 :: sortRemainder q (fullData.filter fun r => !isExact q r)
  | none => sortRemainder q fullData

/-- The pagination block: `orderedData.slice(startIndex, endIndex)` with
`startIndex = (page-1)*limit`, `endIndex = startIndex + limit`. -/
def paginate (orderedData : List RawRecord) (page limit : Nat) : List RawRecord :=
  let startIndex := (page - 1) * limit
  let endIndex := startIndex + limit
  (orderedData.drop startIndex).take (endIndex - startIndex)

/-- The public profile shape of a 200 response. -/
structure Profile where
  id : Option String
  username : Option String
  bio : String
  profilePicture : String
deriving DecidableEq, Repr

/-- The response-mapping block: one record to one profile, with JS `||`
fallbacks for id, bio and picture. -/
def project (item : RawRecord) : Profile :=
  { id := jsOrOpt item.id item.username
    username := item.username
    bio := jsOrS item.bio ""
    profilePicture := jsOrS item.profilePicUrlHD
      (jsOrS item.profilePicUrl "/no-profile-pic-img.png") }

/-- `MAX_PAGES` from the source. -/
def MAX_PAGES : Nat := 7

/-- An incoming HTTP request: method and the query-string parameters the
handler destructures (`query`, `platform`, `page`, `limit`), each possibly
absent. -/
structure Request where
  method : String
  query : Option String := none
  platform : Option String := none
  page : Option String := none
  limit : Option String := none
deriving DecidableEq, Repr

/-- A response body: either the JSON error shape or the page payload
`{ profiles, total, currentPage, totalPages }`. -/
inductive RespBody where
  | error
  | page (profiles : List Profile) (total : Nat) (currentPage : Nat) (totalPages : Nat)
deriving DecidableEq, Repr

/-- An HTTP response: status code and body shape. -/
structure Response where
  status : Nat
  body : RespBody
deriving DecidableEq, Repr

/-- An error response with the given status. -/
def err (status : Nat) : Response := { status := status, body := .error }

/-- Outcome of the external Apify interaction on a cache miss: a fetched item
list, a run without a usable dataset (`!run || !run.defaultDatasetId`), or a
thrown error carrying a possibly-absent message. -/
inductive FetchOutcome where
  | ok (items : List RawRecord)
  | noDataset
  | thrown (msg : Option String)
deriving DecidableEq, Repr

/-- The in-memory `fullSearchCache`, keyed by the lowercased query; newest
binding first, as an association list. -/
abbrev Cache := List (String × List RawRecord)

/-- `parseInt(page, 10)` with the destructuring default `page = 1`. -/
def pageOf (req : Request) : Option Int :=
  match req.page with
  | none => some 1
  | some s => parseIntJS s

/-- `parseInt(limit, 10)` with the destructuring default `limit = 5`. -/
def limitOf (req : Request) : Option Int :=
  match req.limit with
  | none => some 5
  | some s => parseIntJS s

/-- `query.toLowerCase()`: both the cache key and the ranking query. -/
def normQuery (req : Request) : String := lowerStr (req.query.getD "")

/-- The validation block of the handler, in source order: bad query, bad
platform, unparseable or non-positive page, unparseable or non-positive
limit, page beyond `MAX_PAGES`. On success returns the parsed
`(pageInt, limitInt)`. -/
def validate (req : Request) : Except Response (Int × Int) :=
  if !truthy req.query || req.query == some "*" then .error (err 400)
  else if truthy req.platform && !(lowerStr (req.platform.getD "") == "instagram") then
    .error (err 400)
  else
    match pageOf req with
    | none => .error (err 400)
    | some pageInt =>
      if pageInt < 1 then .error (err 400)
      else
        match limitOf req with
        | none => .error (err 400)
        | some limitInt =>
          if limitInt < 1 then .error (err 400)
          else if pageInt > (MAX_PAGES : Int) then .error (err 400)
          else .ok (pageInt, limitInt)

/-- Ranking, pagination and response mapping over a full dataset (the part of
the handler after `fullData` is in hand): 404 when the requested slice is
empty, otherwise the 200 payload with `total` the full dataset's length and
`totalPages` pinned to `MAX_PAGES`. -/
def respond (fullData : List RawRecord) (q : String) (page limit : Nat) : Response :=
  let orderedData := rank fullData q
  let paginatedItems := paginate orderedData page limit
  if paginatedItems.isEmpty then err 404
  else
    { status := 200
      body := .page (paginatedItems.map project) fullData.length page MAX_PAGES }

/-- The catch block: classify a thrown error by message substring —
`"TIMEOUT"` to 504, then `"invalid token"` to 401, else 500; an absent
message (optional chaining) falls to 500. -/
def catchResp (msg : Option String) : Response :=
  match msg with
  | some m =>
    if includesStr m "TIMEOUT" then err 504
    else if includesStr m "invalid token" then err 401
    else err 500
  | none => err 500

/-- The whole handler. Returns the response, the cache after the request, and
whether the external fetch was invoked. Mirrors the source in order: method
guard, validation, cache lookup, fetch (`noDataset` to 502, empty items to
404, thrown errors to the catch block), cache store, then
rank/paginate/project.

The cache-hit test `if (fullSearchCache[cacheKey])` is modelled here as
own-property lookup (`List.lookup`). `fullSearchCache` is a plain `{}`
object, so a JS bracket read additionally walks the prototype chain: for the
property names of `Object.prototype` (all of which hold truthy values) the
test succeeds with nothing stored. `handlerJS` below adds that phantom-hit
branch, and `handlerJS_eq_handler` proves the two models agree on every
request whose normalized query is not such a property name. -/
def handler (req : Request) (cache : Cache) (fo : FetchOutcome) :
    Response × Cache × Bool :=
  if req.method ≠ "GET" then (err 405, cache, false)
  else
    match validate req with
    | .error resp => (resp, cache, false)
    | .ok (pageInt, limitInt) =>
      let cacheKey := normQuery req
      match List.lookup cacheKey cache with
      | some fullData =>
        (respond fullData cacheKey pageInt.toNat limitInt.toNat, cache, false)
      | none =>
        match fo with
        | .thrown msg => (catchResp msg, cache, true)
        | .noDataset => (err 502, cache, true)
        | .ok items =>
          if items.isEmpty then (err 404, cache, true)
          else
            (respond items cacheKey pageInt.toNat limitInt.toNat,
             (cacheKey, items) :: cache, true)

/-- The property names a plain `{}` object inherits from `Object.prototype`;
reading any of them on `fullSearchCache` yields a truthy value (a built-in
function, or `Object.prototype` itself for `"__proto__"`) even when nothing
was ever stored. -/
def protoKeys : List String :=
  ["constructor", "__proto__", "hasOwnProperty", "isPrototypeOf",
   "propertyIsEnumerable", "toLocaleString", "toString", "valueOf",
   "__defineGetter__", "__defineSetter__", "__lookupGetter__",
   "__lookupSetter__"]

/-- Is `k` one of the inherited `Object.prototype` property names? -/
def isProtoKey (k : String) : Bool := protoKeys.contains k

/-- The handler with the JS property-read semantics of the cache-hit test:
an own property (a stored dataset, always a truthy array) wins; otherwise,
for an `Object.prototype` property name, `fullSearchCache[cacheKey]` is the
truthy inherited member, the handler takes the hit branch with that
non-array as `fullData`, `fullData.findIndex` throws a TypeError whose
message contains neither `"TIMEOUT"` nor `"invalid token"`, and the catch
block answers 500 — the fetch is never attempted and the cache is
unchanged. On every other key this agrees with `handler`
(`handlerJS_eq_handler`). -/
def handlerJS (req : Request) (cache : Cache) (fo : FetchOutcome) :
    Response × Cache × Bool :=
  if req.method ≠ "GET" then (err 405, cache, false)
  else
    match validate req with
    | .error resp => (resp, cache, false)
    | .ok (pageInt, limitInt) =>
      let cacheKey := normQuery req
      match List.lookup cacheKey cache with
      | some fullData =>
        (respond fullData cacheKey pageInt.toNat limitInt.toNat, cache, false)
      | none =>
        if isProtoKey cacheKey then (err 500, cache, false)
        else
          match fo with
          | .thrown msg => (catchResp msg, cache, true)
          | .noDataset => (err 502, cache, true)
          | .ok items =>
            if items.isEmpty then (err 404, cache, true)
            else
              (respond items cacheKey pageInt.toNat limitInt.toNat,
               (cacheKey, items) :: cache, true)

/-- Run a sequence of requests, threading the cache; pairs each request with
its response and fetch-invoked flag. -/
def runSeq (cache : Cache) : List (Request × FetchOutcome) → Cache × List (Response × Bool)
  | [] => (cache, [])
  | (req, fo) :: rest =>
    let step := handler req cache fo
    let tail := runSeq step.2.1 rest
    (tail.1, (step.1, step.2.2) :: tail.2)

/-- The sort key realised by the comparator: prefix matches of `q` rank 0,
others rank 1; ties broken by username length. -/
def keyOf (q : String) (r : RawRecord) : Nat × Nat :=
  (if startsWithStr (lcUser r) q then 0 else 1, lenStr (lcUser r))

/-- Lexicographic order on sort keys. -/
def keyLe (p k : Nat × Nat) : Bool :=
  p.1 < k.1 || (p.1 == k.1 && p.2 ≤ k.2)

/- ## Concrete data for scenarios and counterexamples -/

/-- Scenario record `{username:"alice_w"}` from the spec. -/
def rAliceW : RawRecord := { username := some "alice_w" }

/-- Scenario record `{username:"alice"}` from the spec. -/
def rAlice : RawRecord := { username := some "alice" }

/-- Scenario record `{username:"xalice"}` from the spec. -/
def rXalice : RawRecord := { username := some "xalice" }

/-- A record whose username is exactly `"a"`, id `"1"`. -/
def rDupA1 : RawRecord := { id := some "1", username := some "a" }

/-- A second distinct record whose username is exactly `"a"`, id `"2"`. -/
def rDupA2 : RawRecord := { id := some "2", username := some "a" }

/-- A GET request whose `platform` parameter is present but empty. -/
def reqPlatformEmpty : Request :=
  { method := "GET", query := some "alice", platform := some "" }

/-- A record with an explicit empty-string id and an explicit empty-string
high-definition picture URL. -/
def rEmptyId : RawRecord :=
  { id := some "", username := some "q", profilePicUrlHD := some ""
    profilePicUrl := some "pic" }

/-- A plain GET request for the query `"q"`. -/
def reqQ : Request := { method := "GET", query := some "q" }

/-- A GET request whose query lowercases to the inherited property name
`"constructor"`. -/
def reqConstructor : Request := { method := "GET", query := some "Constructor" }

/-- A GET request for `"ALICE"` (upper-case) with page 2 and limit 3. -/
def reqCased : Request :=
  { method := "GET", query := some "ALICE", page := some "2", limit := some "3" }

/-- A cache already holding a dataset under the key `"alice"`. -/
def cacheAlice : Cache := [("alice", [rAlice])]

/-- A cache holding `rEmptyId` under the key `"q"`. -/
def cacheQ : Cache := [("q", [rEmptyId])]

/- ## The comparator is the lexicographic key order -/

theorem cmpLe_eq_keyLe (q : String) (a b : RawRecord) :
    cmpLe q a b = keyLe (keyOf q a) (keyOf q b) := by
  unfold cmpLe cmpJS keyLe keyOf
  rcases ha : startsWithStr (lcUser a) q <;> rcases hb : startsWithStr (lcUser b) q <;>
    simp [ha, hb]

theorem keyLe_total (p k : Nat × Nat) : keyLe p k || keyLe k p := by
  unfold keyLe
  rcases p with ⟨p1, p2⟩; rcases k with ⟨k1, k2⟩
  simp only [Bool.or_eq_true, decide_eq_true_eq, Bool.and_eq_true, beq_iff_eq]
  omega

theorem keyLe_trans {p k m : Nat × Nat} (h1 : keyLe p k = true) (h2 : keyLe k m = true) :
    keyLe p m = true := by
  unfold keyLe at *
  rcases p with ⟨p1, p2⟩; rcases k with ⟨k1, k2⟩; rcases m with ⟨m1, m2⟩
  simp only [Bool.or_eq_true, decide_eq_true_eq, Bool.and_eq_true, beq_iff_eq] at *
  omega

theorem keyLe_refl (p : Nat × Nat) : keyLe p p = true := by
  unfold keyLe; simp

theorem cmpLe_total (q : String) (a b : RawRecord) : cmpLe q a b || cmpLe q b a := by
  rw [cmpLe_eq_keyLe, cmpLe_eq_keyLe]; exact keyLe_total _ _

theorem cmpLe_trans {q : String} {a b c : RawRecord} (h1 : cmpLe q a b = true)
    (h2 : cmpLe q b c = true) : cmpLe q a c = true := by
  rw [cmpLe_eq_keyLe] at *
  exact keyLe_trans h1 h2

theorem cmpLe_of_keyOf_eq {q : String} {a b : RawRecord}
    (h : keyOf q a = keyOf q b) : cmpLe q a b = true := by
  rw [cmpLe_eq_keyLe, h]; exact keyLe_refl _

/- ## Stable insertion sort: permutation, sortedness, fixed point, stability -/

theorem insertLe_perm {α : Type} (le : α → α → Bool) (a : α) (l : List α) :
    (insertLe le a l).Perm (a :: l) := by
  induction l with
  | nil => exact List.Perm.refl _
  | cons b t ih =>
    unfold insertLe
    by_cases h : le a b = true
    · rw [if_pos h]
    · rw [if_neg h]
      exact (ih.cons b).trans (List.Perm.swap a b t)

theorem stableSort_perm {α : Type} (le : α → α → Bool) (l : List α) :
    (stableSort le l).Perm l := by
  induction l with
  | nil => exact List.Perm.refl _
  | cons a t ih =>
    unfold stableSort
    exact (insertLe_perm le a (stableSort le t)).trans (ih.cons a)

theorem mem_stableSort {α : Type} (le : α → α → Bool) (l : List α) (x : α) :
    x ∈ stableSort le l ↔ x ∈ l :=
  (stableSort_perm le l).mem_iff

theorem pairwise_insertLe {α : Type} {le : α → α → Bool}
    (htot : ∀ a b, le a b || le b a)
    (htrans : ∀ {a b c}, le a b = true → le b c = true → le a c = true)
    {l : List α} (a : α) (hl : l.Pairwise (fun x y => le x y = true)) :
    (insertLe le a l).Pairwise (fun x y => le x y = true) := by
  induction l with
  | nil => simp [insertLe]
  | cons b t ih =>
    rcases List.pairwise_cons.mp hl with ⟨hb, ht⟩
    unfold insertLe
    by_cases h : le a b = true
    · rw [if_pos h]
      refine List.pairwise_cons.mpr ⟨?_, hl⟩
      intro y hy
      rcases List.mem_cons.mp hy with rfl | hy2
      · exact h
      · exact htrans h (hb _ hy2)
    · rw [if_neg h]
      refine List.pairwise_cons.mpr ⟨?_, ih ht⟩
      intro y hy
      have hy2 := List.mem_cons.mp ((insertLe_perm le a t).mem_iff.mp hy)
      rcases hy2 with rfl | hy2
      · rcases Bool.or_eq_true_iff.mp (htot y b) with h1 | h1
        · exact absurd h1 h
        · exact h1
      · exact hb _ hy2

theorem pairwise_stableSort {α : Type} {le : α → α → Bool}
    (htot : ∀ a b, le a b || le b a)
    (htrans : ∀ {a b c}, le a b = true → le b c = true → le a c = true)
    (l : List α) : (stableSort le l).Pairwise (fun x y => le x y = true) := by
  induction l with
  | nil => simp [stableSort]
  | cons a t ih => exact pairwise_insertLe htot (fun h1 h2 => htrans h1 h2) a ih

theorem stableSort_of_pairwise {α : Type} {le : α → α → Bool} {l : List α}
    (hl : l.Pairwise (fun x y => le x y = true)) : stableSort le l = l := by
  induction l with
  | nil => rfl
  | cons a t ih =>
    rcases List.pairwise_cons.mp hl with ⟨ha, ht⟩
    unfold stableSort
    rw [ih ht]
    cases t with
    | nil => rfl
    | cons b t2 =>
      unfold insertLe
      simp [ha b (by simp)]

/-- `list.findIndex`/`find?` returns the head of `list.filter`: the first
exact match (`exactMatches[0]` in the source) is `find?`'s witness. -/
theorem find?_eq_head_filter {α : Type} (p : α → Bool) (l : List α) :
    l.find? p = (l.filter p).head? := by
  induction l with
  | nil => rfl
  | cons a t ih =>
    cases h : p a with
    | true =>
      rw [List.find?_cons_of_pos _ h, List.filter_cons_of_pos h, List.head?_cons]
    | false =>
      have h2 : ¬ (p a = true) := by simp [h]
      rw [List.find?_cons_of_neg _ h2, List.filter_cons_of_neg h2, ih]

theorem filter_insertLe_of_key {q : String} {k : Nat × Nat} {a : RawRecord}
    (l : List RawRecord) (h : keyOf q a = k) :
    (insertLe (cmpLe q) a l).filter (fun r => keyOf q r == k)
      = a :: l.filter (fun r => keyOf q r == k) := by
  induction l with
  | nil => simp [insertLe, List.filter, h]
  | cons b t ih =>
    unfold insertLe
    by_cases hle : cmpLe q a b = true
    · rw [if_pos hle]
      simp [List.filter, h]
    · rw [if_neg hle]
      have hbk : keyOf q b ≠ k := by
        intro hk
        exact hle (cmpLe_of_keyOf_eq (h.trans hk.symm))
      have hbk2 : (keyOf q b == k) = false := by
        simp [hbk]
      simp only [List.filter, hbk2, ih]

theorem filter_insertLe_of_key_ne {q : String} {k : Nat × Nat} {a : RawRecord}
    (l : List RawRecord) (h : keyOf q a ≠ k) :
    (insertLe (cmpLe q) a l).filter (fun r => keyOf q r == k)
      = l.filter (fun r => keyOf q r == k) := by
  have ha : (keyOf q a == k) = false := by simp [h]
  induction l with
  | nil => simp [insertLe, List.filter, ha]
  | cons b t ih =>
    unfold insertLe
    by_cases hle : cmpLe q a b = true
    · rw [if_pos hle]
      simp [List.filter, ha]
    · rw [if_neg hle]
      simp only [List.filter, ih]

/-- Stability of the sort: for every sort key, the records carrying that key
appear in the output in their original relative order. -/
theorem stableSort_filter_key (q : String) (k : Nat × Nat) (l : List RawRecord) :
    (stableSort (cmpLe q) l).filter (fun r => keyOf q r == k)
      = l.filter (fun r => keyOf q r == k) := by
  induction l with
  | nil => rfl
  | cons a t ih =>
    unfold stableSort
    by_cases h : keyOf q a = k
    · rw [filter_insertLe_of_key _ h, ih]
      simp [List.filter, h]
    · rw [filter_insertLe_of_key_ne _ h, ih]
      have ha : (keyOf q a == k) = false := by simp [h]
      simp [List.filter, ha]

/- ## Ranking structure -/

theorem sortRemainder_perm (q : String) (l : List RawRecord) :
    (sortRemainder q l).Perm l :=
  stableSort_perm (cmpLe q) l

theorem pairwise_sortRemainder (q : String) (l : List RawRecord) :
    (sortRemainder q l).Pairwise (fun x y => cmpLe q x y = true) :=
  pairwise_stableSort (cmpLe_total q) (fun h1 h2 => cmpLe_trans h1 h2) l

theorem sortRemainder_of_pairwise {q : String} {l : List RawRecord}
    (hl : l.Pairwise (fun x y => cmpLe q x y = true)) : sortRemainder q l = l :=
  stableSort_of_pairwise hl

theorem rank_of_find?_none {d : List RawRecord} {q : String}
    (h : d.find? (isExact q) = none) : rank d q = sortRemainder q d := by
  unfold rank; rw [h]

theorem rank_of_find?_some {d : List RawRecord} {q : String} {e0 : RawRecord}
    (h : d.find? (isExact q) = some e0) :
    rank d q = e0 :: sortRemainder q (d.filter fun r => !isExact q r) := by
  unfold rank; rw [h]

/-- Re-ranking an already-ranked list for the same query is the identity. -/
theorem rank_idempotent (d : List RawRecord) (q : String) :
    rank (rank d q) q = rank d q := by
  cases hf : d.find? (isExact q) with
  | none =>
    have hnone : ∀ x ∈ d, ¬ (isExact q x = true) := List.find?_eq_none.mp hf
    rw [rank_of_find?_none hf]
    have h2 : (sortRemainder q d).find? (isExact q) = none :=
      List.find?_eq_none.mpr fun x hx =>
        hnone x ((sortRemainder_perm q d).mem_iff.mp hx)
    rw [rank_of_find?_none h2]
    exact sortRemainder_of_pairwise (pairwise_sortRemainder q d)
  | some e0 =>
    have he0 : isExact q e0 = true := List.find?_some hf
    rw [rank_of_find?_some hf]
    have hS : ∀ x ∈ sortRemainder q (d.filter fun r => !isExact q r),
        (!isExact q x) = true := by
      intro x hx
      have hx2 := (sortRemainder_perm q _).mem_iff.mp hx
      exact (List.mem_filter.mp hx2).2
    have hfind : (e0 :: sortRemainder q (d.filter fun r => !isExact q r)).find?
        (isExact q) = some e0 :=
      List.find?_cons_of_pos _ he0
    rw [rank_of_find?_some hfind]
    have hfilter : (e0 :: sortRemainder q (d.filter fun r => !isExact q r)).filter
        (fun r => !isExact q r) = sortRemainder q (d.filter fun r => !isExact q r) := by
      have he0f : (!isExact q e0) = false := by simp [he0]
      rw [List.filter_cons_of_neg (by simp [he0])]
      exact List.filter_eq_self.mpr hS
    rw [hfilter]
    exact congrArg _ (sortRemainder_of_pairwise (pairwise_sortRemainder q _))

/-- Concatenating the slices for pages `1..k` recovers the length-`k*ps`
prefix of the ranked list. -/
theorem paginate_concat (l : List RawRecord) (ps k : Nat) :
    ((List.range' 1 k).map fun pg => paginate l pg ps).flatten = l.take (k * ps) := by
  induction k with
  | zero => simp
  | succ k ih =>
    rw [List.range'_concat, List.map_append, List.flatten_append, ih]
    have hpag : paginate l (1 + 1 * k) ps = (l.drop (k * ps)).take ps := by
      simp only [paginate]
      have h1 : 1 + 1 * k - 1 = k := by omega
      rw [h1]
      have h2 : k * ps + ps - k * ps = ps := by omega
      rw [h2]
    simp only [List.map_cons, List.map_nil, List.flatten_cons, List.flatten_nil,
      List.append_nil, hpag]
    have h3 : (k + 1) * ps = k * ps + ps := by ring
    rw [h3, List.take_add]

/- ## Permutation and length accounting for `rank` -/

theorem filter_exact_eq_single {d : List RawRecord} {q : String} {e0 : RawRecord}
    (hf : d.find? (isExact q) = some e0)
    (h1 : (d.filter (isExact q)).length ≤ 1) :
    d.filter (isExact q) = [e0] := by
  have hh : (d.filter (isExact q)).head? = some e0 := by
    rw [← find?_eq_head_filter]; exact hf
  cases hflt : d.filter (isExact q) with
  | nil => rw [hflt] at hh; cases hh
  | cons x t =>
    rw [hflt] at hh h1
    have hx : x = e0 := by
      simpa using hh
    cases t with
    | nil => rw [hx]
    | cons y t2 => simp at h1

theorem rank_perm (d : List RawRecord) (q : String)
    (h : (d.filter (isExact q)).length ≤ 1) : (rank d q).Perm d := by
  cases hf : d.find? (isExact q) with
  | none =>
    rw [rank_of_find?_none hf]
    exact sortRemainder_perm q d
  | some e0 =>
    rw [rank_of_find?_some hf]
    have hsingle := filter_exact_eq_single hf h
    have step1 : (e0 :: sortRemainder q (d.filter fun r => !isExact q r)).Perm
        (e0 :: d.filter fun r => !isExact q r) :=
      (sortRemainder_perm q _).cons e0
    have step2 : (e0 :: d.filter fun r => !isExact q r)
        = d.filter (isExact q) ++ d.filter fun r => !isExact q r := by
      rw [hsingle]; rfl
    have step3 : (d.filter (isExact q) ++ d.filter fun r => !isExact q r).Perm d :=
      List.filter_append_perm (isExact q) d
    exact step1.trans (step2 ▸ step3)

theorem rank_length (d : List RawRecord) (q : String) :
    (rank d q).length + ((d.filter (isExact q)).length - 1) = d.length := by
  have htot : d.length = (d.filter (isExact q)).length
      + (d.filter fun r => !isExact q r).length :=
    List.length_eq_length_filter_add (isExact q)
  cases hf : d.find? (isExact q) with
  | none =>
    have h0 : d.filter (isExact q) = [] := by
      have hh : (d.filter (isExact q)).head? = none := by
        rw [← find?_eq_head_filter]; exact hf
      exact List.head?_eq_none_iff.mp hh
    rw [rank_of_find?_none hf, (sortRemainder_perm q d).length_eq, h0]
    simp
  | some e0 =>
    have hm : 1 ≤ (d.filter (isExact q)).length := by
      have hh : (d.filter (isExact q)).head? = some e0 := by
        rw [← find?_eq_head_filter]; exact hf
      cases hflt : d.filter (isExact q) with
      | nil => rw [hflt] at hh; cases hh
      | cons x t => simp
    rw [rank_of_find?_some hf]
    have hlen : (sortRemainder q (d.filter fun r => !isExact q r)).length
        = (d.filter fun r => !isExact q r).length :=
      (sortRemainder_perm q _).length_eq
    simp only [List.length_cons, hlen]
    omega

/- ## Handler shape lemmas -/

theorem handler_of_bad_method {req : Request} (cache : Cache) (fo : FetchOutcome)
    (hm : req.method ≠ "GET") : handler req cache fo = (err 405, cache, false) := by
  unfold handler
  rw [if_pos hm]

theorem handler_of_validate_error {req : Request} {resp : Response}
    (cache : Cache) (fo : FetchOutcome)
    (hm : req.method = "GET") (hv : validate req = .error resp) :
    handler req cache fo = (resp, cache, false) := by
  unfold handler
  rw [if_neg (by simp [hm]), hv]

theorem handler_of_hit {req : Request} {p l : Int} {fullData : List RawRecord}
    {cache : Cache} (fo : FetchOutcome)
    (hm : req.method = "GET") (hv : validate req = .ok (p, l))
    (hc : List.lookup (normQuery req) cache = some fullData) :
    handler req cache fo
      = (respond fullData (normQuery req) p.toNat l.toNat, cache, false) := by
  simp [handler, hm, hv, hc]

theorem handler_of_miss_thrown {req : Request} {p l : Int} {cache : Cache}
    {msg : Option String}
    (hm : req.method = "GET") (hv : validate req = .ok (p, l))
    (hc : List.lookup (normQuery req) cache = none) :
    handler req cache (.thrown msg) = (catchResp msg, cache, true) := by
  simp [handler, hm, hv, hc]

theorem handler_of_miss_noDataset {req : Request} {p l : Int} {cache : Cache}
    (hm : req.method = "GET") (hv : validate req = .ok (p, l))
    (hc : List.lookup (normQuery req) cache = none) :
    handler req cache .noDataset = (err 502, cache, true) := by
  simp [handler, hm, hv, hc]

theorem handler_of_miss_empty {req : Request} {p l : Int} {cache : Cache}
    (hm : req.method = "GET") (hv : validate req = .ok (p, l))
    (hc : List.lookup (normQuery req) cache = none) :
    handler req cache (.ok []) = (err 404, cache, true) := by
  simp [handler, hm, hv, hc]

theorem handler_of_miss_items {req : Request} {p l : Int} {cache : Cache}
    {items : List RawRecord}
    (hm : req.method = "GET") (hv : validate req = .ok (p, l))
    (hc : List.lookup (normQuery req) cache = none) (hne : items ≠ []) :
    handler req cache (.ok items)
      = (respond items (normQuery req) p.toNat l.toNat,
         (normQuery req, items) :: cache, true) := by
  cases items with
  | nil => exact absurd rfl hne
  | cons a t => simp [handler, hm, hv, hc]

theorem respond_of_empty_slice {fullData : List RawRecord} {q : String}
    {page limit : Nat} (h : paginate (rank fullData q) page limit = []) :
    respond fullData q page limit = err 404 := by
  simp [respond, h]

theorem respond_of_nonempty_slice {fullData : List RawRecord} {q : String}
    {page limit : Nat} (h : paginate (rank fullData q) page limit ≠ []) :
    respond fullData q page limit
      = { status := 200
          body := .page ((paginate (rank fullData q) page limit).map project)
                    fullData.length page MAX_PAGES } := by
  simp [respond, h]

/- ## Validation lemmas -/

/-- Every failure of the validation block is a 400 response. -/
theorem validate_error_status {req : Request} {resp : Response}
    (h : validate req = .error resp) : resp = err 400 := by
  unfold validate at h
  repeat' split at h
  all_goals simp_all

/-- What must hold of a request for the validation block to succeed. -/
theorem validate_ok_facts {req : Request} {p l : Int}
    (h : validate req = .ok (p, l)) :
    truthy req.query = true ∧ req.query ≠ some "*" ∧
    (truthy req.platform = false ∨ lowerStr (req.platform.getD "") = "instagram") ∧
    pageOf req = some p ∧ 1 ≤ p ∧ p ≤ (MAX_PAGES : Int) ∧
    limitOf req = some l ∧ 1 ≤ l := by
  unfold validate at h
  cases hq : (!truthy req.query || req.query == some "*") with
  | true => rw [hq] at h; simp at h
  | false =>
  rw [hq] at h
  simp only [Bool.false_eq_true, if_false] at h
  cases hpf : (truthy req.platform
      && !(lowerStr (req.platform.getD "") == "instagram")) with
  | true => rw [hpf] at h; simp at h
  | false =>
  rw [hpf] at h
  simp only [Bool.false_eq_true, if_false] at h
  cases hpg : pageOf req with
  | none => rw [hpg] at h; simp at h
  | some pageInt =>
  rw [hpg] at h
  simp only [] at h
  by_cases hlt : pageInt < 1
  · rw [if_pos hlt] at h; simp at h
  · rw [if_neg hlt] at h
    cases hlm : limitOf req with
    | none => rw [hlm] at h; simp at h
    | some limitInt =>
    rw [hlm] at h
    simp only [] at h
    by_cases hll : limitInt < 1
    · rw [if_pos hll] at h; simp at h
    · rw [if_neg hll] at h
      by_cases hgt : pageInt > (MAX_PAGES : Int)
      · rw [if_pos hgt] at h; simp at h
      · rw [if_neg hgt] at h
        have hpl : pageInt = p ∧ limitInt = l := by
          cases h; exact ⟨rfl, rfl⟩
        obtain ⟨rfl, rfl⟩ := hpl
        have hq2 := hq
        simp only [Bool.or_eq_false_iff, Bool.not_eq_false'] at hq2
        have hpf2 := hpf
        simp only [Bool.and_eq_false_iff, Bool.not_eq_false'] at hpf2
        refine ⟨hq2.1, ?_, ?_, rfl, by omega, by omega, rfl, by omega⟩
        · intro hcon
          have : (req.query == some "*") = true := by
            rw [hcon]; exact beq_self_eq_true _
          rw [this] at hq2
          cases hq2.2
        · rcases hpf2 with h1 | h1
          · exact Or.inl h1
          · exact Or.inr (beq_iff_eq.mp h1)

/- ## Cache discipline -/

/-- The status of the post-fetch stage is 200 or 404. -/
theorem respond_status (d : List RawRecord) (q : String) (pg li : Nat) :
    (respond d q pg li).status = 200 ∨ (respond d q pg li).status = 404 := by
  by_cases h : paginate (rank d q) pg li = []
  · right; rw [respond_of_empty_slice h]; rfl
  · left; rw [respond_of_nonempty_slice h]

/-- Either the handler leaves the cache untouched, or the fetch returned a
non-empty item list for an uncached key and exactly that entry was added. -/
theorem handler_cache_cases (req : Request) (cache : Cache) (fo : FetchOutcome) :
    (handler req cache fo).2.1 = cache ∨
    (∃ items, fo = .ok items ∧ items ≠ [] ∧
       List.lookup (normQuery req) cache = none ∧
       (handler req cache fo).2.1 = (normQuery req, items) :: cache ∧
       ((handler req cache fo).1.status = 200 ∨
        (handler req cache fo).1.status = 404)) := by
  by_cases hm : req.method = "GET"
  · cases hv : validate req with
    | error resp => left; rw [handler_of_validate_error cache fo hm hv]
    | ok pl =>
      obtain ⟨p, l⟩ := pl
      cases hc : List.lookup (normQuery req) cache with
      | some ds => left; rw [handler_of_hit fo hm hv hc]
      | none =>
        cases fo with
        | thrown m => left; rw [handler_of_miss_thrown hm hv hc]
        | noDataset => left; rw [handler_of_miss_noDataset hm hv hc]
        | ok items =>
          cases items with
          | nil => left; rw [handler_of_miss_empty hm hv hc]
          | cons a t =>
            right
            refine ⟨a :: t, rfl, by simp, rfl, ?_, ?_⟩
            · rw [handler_of_miss_items hm hv hc (by simp)]
            · rw [handler_of_miss_items hm hv hc (by simp)]
              exact respond_status _ _ _ _
  · left; rw [handler_of_bad_method cache fo hm]

/-- On a cache miss of a valid GET request the fetch is always attempted. -/
theorem handler_miss_called {req : Request} {p l : Int} {cache : Cache}
    (fo : FetchOutcome) (hm : req.method = "GET") (hv : validate req = .ok (p, l))
    (hc : List.lookup (normQuery req) cache = none) :
    (handler req cache fo).2.2 = true := by
  cases fo with
  | thrown m => rw [handler_of_miss_thrown hm hv hc]
  | noDataset => rw [handler_of_miss_noDataset hm hv hc]
  | ok items =>
    cases items with
    | nil => rw [handler_of_miss_empty hm hv hc]
    | cons a t => rw [handler_of_miss_items hm hv hc (by simp)]

/-- If the request's normalized query is already cached, the fetch is not
invoked, whatever the method, page, limit or fetch oracle. -/
theorem handler_hit_not_called {req : Request} {cache : Cache} {ds : List RawRecord}
    (fo : FetchOutcome) (hc : List.lookup (normQuery req) cache = some ds) :
    (handler req cache fo).2.2 = false := by
  by_cases hm : req.method = "GET"
  · cases hv : validate req with
    | error resp => rw [handler_of_validate_error cache fo hm hv]
    | ok pl =>
      obtain ⟨p, l⟩ := pl
      rw [handler_of_hit fo hm hv hc]
  · rw [handler_of_bad_method cache fo hm]

/-- Existing cache entries survive any request unchanged. -/
theorem handler_preserves_lookup {req : Request} {cache : Cache} {k : String}
    {ds : List RawRecord} (fo : FetchOutcome)
    (h : List.lookup k cache = some ds) :
    List.lookup k (handler req cache fo).2.1 = some ds := by
  rcases handler_cache_cases req cache fo with hsame | ⟨items, _, _, hmiss, hcons, _⟩
  · rw [hsame]; exact h
  · rw [hcons]
    have hk : (k == normQuery req) = false := by
      cases hkv : k == normQuery req with
      | false => rfl
      | true =>
        exfalso
        have hkeq : k = normQuery req := beq_iff_eq.mp hkv
        rw [hkeq] at h
        rw [h] at hmiss
        cases hmiss
    simp only [List.lookup, hk]
    exact h

/- ## Claims -/

/-- C1, counterexample: the ranking is not a permutation when more than one
record's username equals the normalized query — on a dataset of two distinct
records both named `"a"`, the ranked output keeps only the first: the extra
exact matches are removed by the `username !== q` filter, not folded back. -/
theorem C1_counterexample :
    ([rDupA1, rDupA2] : List RawRecord).length = 2 ∧
    rank [rDupA1, rDupA2] "a" = [rDupA1] ∧
    ¬ (rank [rDupA1, rDupA2] "a").Perm [rDupA1, rDupA2] := by
  refine ⟨rfl, by decide, fun hperm => ?_⟩
  have hlen := hperm.length_eq
  have h1 : rank [rDupA1, rDupA2] "a" = [rDupA1] := by decide
  rw [h1] at hlen
  simp at hlen

/-- C1 (amended): the ranking's output length is the input length minus the
number of exact matches beyond the pinned first one (duplicated exact matches
are dropped, not folded back); whenever at most one record's username equals
the normalized query, the ranking is a permutation of its input. -/
theorem C1_rank_permutation (d : List RawRecord) (q : String) :
    (rank d q).length + ((d.filter (isExact q)).length - 1) = d.length ∧
    ((d.filter (isExact q)).length ≤ 1 → (rank d q).Perm d) :=
  ⟨rank_length d q, rank_perm d q⟩

/-- C1 witness: on the spec's three-record scenario (a single exact match)
the ranking is a permutation of the dataset. -/
theorem C1_rank_permutation_witness :
    (rank [rAliceW, rAlice, rXalice] "alice").Perm [rAliceW, rAlice, rXalice] :=
  (C1_rank_permutation [rAliceW, rAlice, rXalice] "alice").2 (by decide)

/-- C2: when some record's lowercased username equals the lowercased query,
the first such record in input order (`find?`'s witness) is pinned at
position 0; the tail of the ranking is exactly the non-exact records, sorted
so that prefix matches of the query come before non-matches and shorter
usernames come before longer ones within a group (`keyOf`/`keyLe`), and is a
permutation of those records; hence for every pageSize ≥ 1 the pinned record
is the first Profile of page 1; and the spec's scenario
`[alice_w, alice, xalice]` with query `"alice"` ranks as
`[alice, alice_w, xalice]`. -/
theorem C2_exact_match_pinned (d : List RawRecord) (q : String) (e0 : RawRecord)
    (hfind : d.find? (isExact q) = some e0) :
    (rank d q).head? = some e0 ∧
    (rank d q).tail = sortRemainder q (d.filter fun r => !isExact q r) ∧
    ((rank d q).tail).Perm (d.filter fun r => !isExact q r) ∧
    ((rank d q).tail).Pairwise (fun a b => keyLe (keyOf q a) (keyOf q b) = true) ∧
    (∀ ps, 1 ≤ ps →
       ((paginate (rank d q) 1 ps).map project).head? = some (project e0)) ∧
    rank [rAliceW, rAlice, rXalice] "alice" = [rAlice, rAliceW, rXalice] := by
  rw [rank_of_find?_some hfind]
  refine ⟨rfl, rfl, sortRemainder_perm q _, ?_, ?_, by decide⟩
  · exact (pairwise_sortRemainder q _).imp fun hxy => by rwa [cmpLe_eq_keyLe] at hxy
  · intro ps hps
    obtain ⟨n, rfl⟩ := Nat.exists_eq_succ_of_ne_zero (show ps ≠ 0 by omega)
    simp [paginate]

/-- C2 witness: in the spec's scenario the exact match `alice` is pinned
first and is the first profile of page 1 at pageSize 5. -/
theorem C2_exact_match_pinned_witness :
    (rank [rAliceW, rAlice, rXalice] "alice").head? = some rAlice ∧
    ((paginate (rank [rAliceW, rAlice, rXalice] "alice") 1 5).map project).head?
      = some (project rAlice) := by
  have h := C2_exact_match_pinned [rAliceW, rAlice, rXalice] "alice" rAlice (by decide)
  exact ⟨h.1, h.2.2.2.2.1 5 (by decide)⟩

/-- C5: the page slice is `ranked[(page-1)*pageSize : (page-1)*pageSize +
pageSize]`, and concatenating the slices for pages `1..k` is exactly the
length-`k × pageSize` prefix of the full ranked ordering (truncated at the
list's end), so pages neither duplicate nor drop items. -/
theorem C5_pagination_consistency (ranked : List RawRecord) (ps k : Nat)
    (hps : 1 ≤ ps) (_hk1 : 1 ≤ k) (_hk7 : k ≤ MAX_PAGES) :
    (∀ page, paginate ranked page ps
        = (ranked.drop ((page - 1) * ps)).take ps) ∧
    ((List.range' 1 k).map fun pg => paginate ranked pg ps).flatten
      = ranked.take (k * ps) := by
  constructor
  · intro page
    simp only [paginate]
    congr 1
    omega
  · exact paginate_concat ranked ps k

/-- C5 witness: pages 1 and 2 at pageSize 1 over a three-record ranked list
concatenate to its length-2 prefix. -/
theorem C5_pagination_consistency_witness :
    ((List.range' 1 2).map fun pg => paginate [rAlice, rAliceW, rXalice] pg 1).flatten
      = ([rAlice, rAliceW, rXalice] : List RawRecord).take (2 * 1) :=
  (C5_pagination_consistency [rAlice, rAliceW, rXalice] 1 2 (by decide) (by decide)
    (by decide)).2

/-- C8: ranking is idempotent — re-ranking an already-ranked sequence for the
same query yields an identical sequence — and the underlying sort is stable:
for every sort key, records carrying that key keep their original relative
order. Purity and non-mutation of the input are inherent to the embedding:
`rank` is a function of its arguments alone. -/
theorem C8_rank_idempotent_stable (d : List RawRecord) (q : String) :
    rank (rank d q) q = rank d q ∧
    (∀ k : Nat × Nat,
       (sortRemainder q d).filter (fun r => keyOf q r == k)
         = d.filter fun r => keyOf q r == k) :=
  ⟨rank_idempotent d q, fun k => stableSort_filter_key q k d⟩

/-- C9: a request whose method is not GET is answered 405 with an error body
and neither the cache nor the external fetch is touched. -/
theorem C9_non_get_rejected (req : Request) (cache : Cache) (fo : FetchOutcome)
    (hm : req.method ≠ "GET") :
    handler req cache fo = (err 405, cache, false) :=
  handler_of_bad_method cache fo hm

/-- C9 witness: a POST request is answered 405 without cache or fetch
activity. -/
theorem C9_non_get_rejected_witness :
    handler { method := "POST", query := some "alice" } [] .noDataset
      = (err 405, [], false) :=
  C9_non_get_rejected _ _ _ (by decide)

/-- C3, counterexample: a GET request whose `platform` parameter is present
but the empty string is not rejected — JS truthiness skips the platform
check for `""` — so the request proceeds to a 200 and the fetch is invoked,
although `""` is not case-insensitively `"instagram"`. -/
theorem C3_counterexample :
    reqPlatformEmpty.platform = some "" ∧
    lowerStr "" ≠ "instagram" ∧
    (handler reqPlatformEmpty [] (.ok [rAlice])).1.status = 200 ∧
    (handler reqPlatformEmpty [] (.ok [rAlice])).2.2 = true := by
  exact ⟨rfl, by decide, by decide, by decide⟩

/-- C3 (amended): for every GET request with an invalid parameter — query
absent or the wildcard `"*"`, platform present, non-empty and not
case-insensitively `"instagram"`, page or limit not parseable as an integer
≥ 1, or page exceeding `MAX_PAGES` = 7 (regardless of limit) — the handler
responds 400 and the external fetch is never invoked. -/
theorem C3_invalid_rejected (req : Request) (cache : Cache) (fo : FetchOutcome)
    (hm : req.method = "GET")
    (hbad : req.query = none ∨ req.query = some "*" ∨
      (∃ pf, req.platform = some pf ∧ pf ≠ "" ∧ lowerStr pf ≠ "instagram") ∨
      pageOf req = none ∨ (∃ n, pageOf req = some n ∧ n < 1) ∨
      limitOf req = none ∨ (∃ n, limitOf req = some n ∧ n < 1) ∨
      (∃ n, pageOf req = some n ∧ (MAX_PAGES : Int) < n)) :
    (handler req cache fo).1.status = 400 ∧ (handler req cache fo).2.2 = false := by
  cases hv : validate req with
  | error resp =>
    rw [handler_of_validate_error cache fo hm hv, validate_error_status hv]
    exact ⟨rfl, rfl⟩
  | ok pl =>
    exfalso
    obtain ⟨p, l⟩ := pl
    obtain ⟨hq, hstar, hplat, hpg, hp1, hp7, hlm, hl1⟩ := validate_ok_facts hv
    rcases hbad with h | h | h | h | h | h | h | h
    · rw [h] at hq; simp [truthy] at hq
    · exact hstar h
    · obtain ⟨pf, hpf, hne, hni⟩ := h
      rcases hplat with h1 | h1
      · rw [hpf] at h1; simp [truthy] at h1; exact hne h1
      · rw [hpf] at h1; simp [Option.getD] at h1; exact hni h1
    · rw [h] at hpg; cases hpg
    · obtain ⟨n, hn, hn1⟩ := h; rw [hn] at hpg; cases hpg; omega
    · rw [h] at hlm; cases hlm
    · obtain ⟨n, hn, hn1⟩ := h; rw [hn] at hlm; cases hlm; omega
    · obtain ⟨n, hn, hn7⟩ := h; rw [hn] at hpg; cases hpg; omega

/-- C3 witness: `page=9` with the default limit is rejected with 400 and no
fetch. -/
theorem C3_invalid_rejected_witness :
    (handler { method := "GET", query := some "alice", page := some "9" } []
      .noDataset).1.status = 400 ∧
    (handler { method := "GET", query := some "alice", page := some "9" } []
      .noDataset).2.2 = false :=
  C3_invalid_rejected _ _ _ rfl
    (Or.inr (Or.inr (Or.inr (Or.inr (Or.inr (Or.inr (Or.inr
      ⟨9, by decide, by decide⟩)))))))

/-- C4: once the cache holds a dataset under a normalized (lowercased) query
key, no later request in any sequence whose query lowercases to that key —
whatever its page, limit, letter-casing or method — invokes the external
fetch: its fetch-invoked flag is false. -/
theorem C4_cached_never_refetched (key : String) (ds : List RawRecord)
    (cache : Cache) (reqs : List (Request × FetchOutcome))
    (hcached : List.lookup key cache = some ds)
    (i : Nat) (req : Request) (fo : FetchOutcome) (out : Response × Bool)
    (hreq : reqs[i]? = some (req, fo))
    (hout : ((runSeq cache reqs).2)[i]? = some out)
    (hkey : normQuery req = key) :
    out.2 = false := by
  induction reqs generalizing cache i with
  | nil => cases hreq
  | cons hd tl ih =>
    obtain ⟨req0, fo0⟩ := hd
    simp only [runSeq] at hout
    cases i with
    | zero =>
      simp only [List.getElem?_cons_zero] at hreq hout
      have h1 : (req0, fo0) = (req, fo) := Option.some.inj hreq
      have hr : req0 = req := congrArg Prod.fst h1
      subst hr
      have h2 := Option.some.inj hout
      rw [← h2]
      exact handler_hit_not_called fo0 (by rw [hkey]; exact hcached)
    | succ n =>
      simp only [List.getElem?_cons_succ] at hreq hout
      exact ih ((handler req0 cache fo0).2.1)
        (handler_preserves_lookup fo0 hcached) n hreq hout

/-- C4 witness: after `"Alice"` is cached, a second request for `"ALICE"`
with another page and limit does not fetch. -/
theorem C4_cached_never_refetched_witness :
    (((runSeq cacheAlice [(reqCased, .noDataset)]).2).headD (err 400, true)).2
      = false :=
  C4_cached_never_refetched "alice" [rAlice] cacheAlice [(reqCased, .noDataset)]
    (by decide) 0 reqCased .noDataset
    (((runSeq cacheAlice [(reqCased, .noDataset)]).2).headD (err 400, true))
    (by decide) (by decide) (by decide)

/-- C6: failure-to-status mapping, reading the taxonomy in order of the
catch block — a thrown failure whose message contains `"TIMEOUT"` is 504; a
thrown failure whose message contains `"invalid token"` (and not
`"TIMEOUT"`) is 401; a fetch run without a usable result container is 502;
a fetch returning zero items is 404; a requested page whose slice is empty
is 404 (on hit and on fresh-fetch paths alike); any other thrown failure,
including one with no message, is 500. -/
theorem C6_error_taxonomy (req : Request) (cache : Cache) (p l : Int)
    (hm : req.method = "GET") (hv : validate req = .ok (p, l)) :
    (∀ m, List.lookup (normQuery req) cache = none →
       includesStr m "TIMEOUT" = true →
       (handler req cache (.thrown (some m))).1 = err 504) ∧
    (∀ m, List.lookup (normQuery req) cache = none →
       includesStr m "TIMEOUT" = false → includesStr m "invalid token" = true →
       (handler req cache (.thrown (some m))).1 = err 401) ∧
    (List.lookup (normQuery req) cache = none →
       (handler req cache .noDataset).1 = err 502) ∧
    (List.lookup (normQuery req) cache = none →
       (handler req cache (.ok [])).1 = err 404) ∧
    (∀ items, List.lookup (normQuery req) cache = none → items ≠ [] →
       paginate (rank items (normQuery req)) p.toNat l.toNat = [] →
       (handler req cache (.ok items)).1 = err 404) ∧
    (∀ ds fo, List.lookup (normQuery req) cache = some ds →
       paginate (rank ds (normQuery req)) p.toNat l.toNat = [] →
       (handler req cache fo).1 = err 404) ∧
    (∀ m, List.lookup (normQuery req) cache = none →
       includesStr m "TIMEOUT" = false → includesStr m "invalid token" = false →
       (handler req cache (.thrown (some m))).1 = err 500) ∧
    (List.lookup (normQuery req) cache = none →
       (handler req cache (.thrown none)).1 = err 500) := by
  refine ⟨?_, ?_, ?_, ?_, ?_, ?_, ?_, ?_⟩
  · intro m hc ht
    rw [handler_of_miss_thrown hm hv hc]
    simp [catchResp, ht]
  · intro m hc ht hi
    rw [handler_of_miss_thrown hm hv hc]
    simp [catchResp, ht, hi]
  · intro hc
    rw [handler_of_miss_noDataset hm hv hc]
  · intro hc
    rw [handler_of_miss_empty hm hv hc]
  · intro items hc hne hpag
    rw [handler_of_miss_items hm hv hc hne]
    exact respond_of_empty_slice hpag
  · intro ds fo hc hpag
    rw [handler_of_hit fo hm hv hc]
    exact respond_of_empty_slice hpag
  · intro m hc ht hi
    rw [handler_of_miss_thrown hm hv hc]
    simp [catchResp, ht, hi]
  · intro hc
    rw [handler_of_miss_thrown hm hv hc]
    rfl

/-- C6 witness: on a fresh query, a thrown failure whose message contains
`"TIMEOUT"` is answered 504, and a run without a dataset is answered 502. -/
theorem C6_error_taxonomy_witness :
    (handler reqQ [] (.thrown (some "Apify TIMEOUT hit"))).1 = err 504 ∧
    (handler reqQ [] .noDataset).1 = err 502 :=
  ⟨(C6_error_taxonomy reqQ [] 1 5 rfl rfl).1 "Apify TIMEOUT hit" rfl
      (by decide),
   (C6_error_taxonomy reqQ [] 1 5 rfl rfl).2.2.1 rfl⟩

/-- C7, counterexample: the projection does not keep an explicit
empty-string id (the claim's "falling back ... when id is absent"): JS `||`
also replaces a present-but-empty id with the username, and a
present-but-empty high-definition URL with the standard URL — the cached
record `{id:"", username:"q", profilePicUrlHD:"", profilePicUrl:"pic"}`
yields the 200 profile `{id:"q", ..., profilePicture:"pic"}`. -/
theorem C7_counterexample :
    rEmptyId.id = some "" ∧ rEmptyId.profilePicUrlHD = some "" ∧
    (handler reqQ cacheQ .noDataset).1 =
      { status := 200
        body := .page [{ id := some "q", username := some "q", bio := ""
                         profilePicture := "pic" }] 1 1 7 } :=
  ⟨rfl, rfl, by decide⟩

/-- C7 (amended): every 200 response body consists of the paginated slice of
the ranked dataset projected record-wise — id is the record's id unless it
is absent or empty, in which case the username; username is passed through;
bio defaults to the empty string when absent (or empty); profilePicture is
the first present *and non-empty* of the high-definition URL, the standard
URL, the placeholder path — a total projection; total is the full cached
dataset's length; currentPage is the requested page; totalPages is always
`MAX_PAGES` = 7 regardless of the dataset's size. Stated for both the
cache-hit path and the fresh-fetch path. -/
theorem C7_response_shape (req : Request) (cache : Cache) (p l : Int)
    (hm : req.method = "GET") (hv : validate req = .ok (p, l)) :
    (∀ ds fo, List.lookup (normQuery req) cache = some ds →
       paginate (rank ds (normQuery req)) p.toNat l.toNat ≠ [] →
       (handler req cache fo).1 =
         { status := 200
           body := .page
             ((paginate (rank ds (normQuery req)) p.toNat l.toNat).map project)
             ds.length p.toNat MAX_PAGES }) ∧
    (∀ items, List.lookup (normQuery req) cache = none → items ≠ [] →
       paginate (rank items (normQuery req)) p.toNat l.toNat ≠ [] →
       (handler req cache (.ok items)).1 =
         { status := 200
           body := .page
             ((paginate (rank items (normQuery req)) p.toNat l.toNat).map project)
             items.length p.toNat MAX_PAGES }) := by
  constructor
  · intro ds fo hc hne
    rw [handler_of_hit fo hm hv hc]
    exact respond_of_nonempty_slice hne
  · intro items hc hne hpag
    rw [handler_of_miss_items hm hv hc hne]
    exact respond_of_nonempty_slice hpag

/-- C7 witness: the cached single-record dataset for `"q"` produces exactly
the projected page body. -/
theorem C7_response_shape_witness :
    (handler reqQ cacheQ .noDataset).1 =
      { status := 200
        body := .page
          ((paginate (rank [rEmptyId] (normQuery reqQ)) (1 : Int).toNat
              (5 : Int).toNat).map project)
          ([rEmptyId] : List RawRecord).length (1 : Int).toNat MAX_PAGES } :=
  (C7_response_shape reqQ cacheQ 1 5 rfl rfl).1 [rEmptyId] .noDataset
    (by decide) (by decide)

/-- Cache-write discipline of the intended (own-property) cache — (i) any
entry readable after a request was either already present or is a non-empty
fetched dataset, so cached datasets are never empty; (ii) a request whose
fetch fails (no result container, zero items, or a thrown error) leaves the
cache exactly as it was, as does (iii) any request answered 400 or 405; and
(iv) after such a failed request on an uncached valid GET query, a retry of
the same query attempts the fetch again. -/
theorem cache_write_discipline (req : Request) (cache : Cache)
    (fo : FetchOutcome) :
    (∀ k ds, List.lookup k (handler req cache fo).2.1 = some ds →
       List.lookup k cache = some ds ∨ ds ≠ []) ∧
    ((fo = .noDataset ∨ fo = .ok [] ∨ (∃ m, fo = .thrown m)) →
       (handler req cache fo).2.1 = cache) ∧
    ((handler req cache fo).1.status = 400 ∨ (handler req cache fo).1.status = 405 →
       (handler req cache fo).2.1 = cache) ∧
    (∀ p l fo2, req.method = "GET" → validate req = .ok (p, l) →
       List.lookup (normQuery req) cache = none →
       (fo = .noDataset ∨ fo = .ok [] ∨ (∃ m, fo = .thrown m)) →
       (handler req ((handler req cache fo).2.1) fo2).2.2 = true) := by
  rcases handler_cache_cases req cache fo with hsame |
    ⟨items, hfo, hne, hmiss, hcons, hstat⟩
  · refine ⟨?_, fun h => hsame, fun h => hsame, ?_⟩
    · intro k ds h
      rw [hsame] at h
      exact Or.inl h
    · intro p l fo2 hm hv hc hfail
      rw [hsame]
      exact handler_miss_called fo2 hm hv hc
  · refine ⟨?_, ?_, ?_, ?_⟩
    · intro k ds h
      rw [hcons] at h
      cases hk : k == normQuery req with
      | true =>
        right
        simp only [List.lookup, hk] at h
        rw [← Option.some.inj h]
        exact hne
      | false =>
        left
        simp only [List.lookup, hk] at h
        exact h
    · intro hfail
      exfalso
      rcases hfail with h | h | ⟨m, h⟩
      · rw [hfo] at h; cases h
      · rw [hfo] at h; injection h with h2; exact hne h2
      · rw [hfo] at h; cases h
    · intro hst
      exfalso
      rcases hstat with h2 | h2 <;> rcases hst with h3 | h3 <;> omega
    · intro p l fo2 hm hv hc hfail
      exfalso
      rcases hfail with h | h | ⟨m, h⟩
      · rw [hfo] at h; cases h
      · rw [hfo] at h; injection h with h2; exact hne h2
      · rw [hfo] at h; cases h

/-- Example of the discipline: a failed fetch (`noDataset`, answered 502) on
an empty cache leaves the cache empty, and the retry of the same request
attempts the fetch — for a non-phantom key. -/
theorem cache_write_discipline_example :
    (handler reqQ [] .noDataset).2.1 = ([] : Cache) ∧
    (handler reqQ ((handler reqQ [] .noDataset).2.1) .noDataset).2.2 = true :=
  ⟨(cache_write_discipline reqQ [] .noDataset).2.1 (Or.inl rfl),
   (cache_write_discipline reqQ [] .noDataset).2.2.2 1 5 .noDataset rfl
     rfl (by decide) (Or.inl rfl)⟩

/-- Away from the inherited `Object.prototype` property names, the
own-property cache model and the JS property-read model are the same
function: they can only differ on a request whose normalized query is a
phantom key and is not genuinely stored. -/
theorem handlerJS_eq_handler (req : Request) (cache : Cache) (fo : FetchOutcome)
    (h : isProtoKey (normQuery req) = false) :
    handlerJS req cache fo = handler req cache fo := by
  unfold handlerJS handler
  by_cases hm : req.method = "GET"
  · cases hv : validate req with
    | error resp => simp [hm, hv]
    | ok pl =>
      obtain ⟨p, l⟩ := pl
      cases hc : List.lookup (normQuery req) cache with
      | some ds => simp [hm, hv, hc]
      | none => simp [hm, hv, hc, h]
  · simp [hm]

/-- C10: the claimed cache-write discipline — entries are created only by
fetches returning at least one item, error responses before the cache write
leave the cache unchanged, and a later request for the same query attempts
the fetch again — describes the intended cache (proved for the own-property
model as `cache_write_discipline`), but the code violates its retry part:
`fullSearchCache` is a plain `{}`, so for a query lowercasing to the
inherited property name `"constructor"` the bracket read is truthy with
nothing stored, every request — first or retry — is a phantom cache hit
whose non-array `fullData` makes `findIndex` throw, the response is 500,
the cache stays empty, and the fetch is never attempted. -/
theorem C10_phantom_key_bug :
    normQuery reqConstructor = "constructor" ∧
    isProtoKey (normQuery reqConstructor) = true ∧
    List.lookup (normQuery reqConstructor) ([] : Cache) = none ∧
    (∀ fo, handlerJS reqConstructor [] fo = (err 500, [], false)) ∧
    (∀ fo fo2,
       (handlerJS reqConstructor
         ((handlerJS reqConstructor [] fo).2.1) fo2).2.2 = false) :=
  ⟨rfl, rfl, rfl, fun _ => rfl, fun _ _ => rfl⟩

end InstagramSearch


